import Mathlib

/-!
Shallow embedding of gotoolkits/rpool, a bounded connection pool.

The repository has three near-duplicate variants of one design:
* `src/conn_pool/pool.go` — package `conn_pool` with a global mutex:
  `ConnPool` with `Get`, `Close`, `Destroy`;
* `src/tcp_connpool/pool.go` (first part) — package `tcp_connpool`:
  `TcpConnPool` with `Get`, `Close`, `Destroy`, dialing real sockets;
* `src/tcp_connpool/pool.go` (second part) — a newer package `conn_pool`
  with a per-pool mutex: `ConnPool` with `Get`, `Release`, `CloseClean`,
  `Destroy`.

Go `int` fields are modelled as `Int` (the counters never approach the
64-bit range in the behaviours under study; signedness is what matters,
since the code can decrement `conns` below zero).  A Go interface value
that may be `nil` (`io.Closer` / `net.Conn`) is modelled as
`Option Handle`.  The caller-supplied `New`/`open` (Factory) and `Ping`
(Validator) are passed to `Get` as explicit parameters: the outcome of
the single Factory call a `Get` may perform, and the Validator as a
function from handles to an optional error.  Each operation additionally
returns the list of handles on which `Close()` was invoked during the
call, so that resource-release claims can be stated.
-/

namespace Rpool

/-- Connection handles are opaque; we name them by natural numbers.
A Go interface value that may be nil is `Option Handle`. -/
abbrev Handle := Nat

/-- The error domain: `ErrMaxConn` ("Maximum connections reached") is the
only error the pool itself produces; `fail n` stands for an arbitrary
error produced by the caller-supplied Factory or Validator. -/
inductive Err where
  | maxConn : Err
  | fail : Nat → Err
deriving DecidableEq, Repr

/-- Pool state shared by all three variants: the configured ceilings
`MaxConns`/`MaxIdle`, the outstanding counter `conns`, and the free list
`free` (Go: `conns int; free []io.Closer`). The `Name` field is used only
for diagnostics and is omitted. -/
structure Pool where
  MaxConns : Int
  MaxIdle : Int
  conns : Int
  free : List (Option Handle)
deriving DecidableEq, Repr

/-- Go `NewConnPool(name, max_conns, max_idle)`: zero counter, empty
free list. -/
def NewConnPool (max_conns max_idle : Int) : Pool :=
  { MaxConns := max_conns, MaxIdle := max_idle, conns := 0, free := [] }

/-- Result of one `Get` call: the returned connection and error (Go's
`(conn, err)` pair), the pool state after the call, and the handles
closed during the call. -/
structure GetResult where
  conn : Option Handle
  err : Option Err
  pool : Pool
  closed : List (Option Handle)
deriving DecidableEq, Repr

/-- Embeds `ConnPool.Get` of `src/conn_pool/pool.go` (the data behaviour
is shared verbatim by `TcpConnPool.Get` and by the second variant's
`ConnPool.Get`; they differ only in locking, treated separately):
if `conns >= MaxConns` and the free list is empty, fail with
`ErrMaxConn`; else pop the head of the free list if non-empty, otherwise
call the Factory (`newConn` is that call's outcome), propagating its
error; then run `ping` on the candidate: on ping failure decrement
`conns` only on the reused path and only when `conns > 0`, close the
candidate and propagate the error; on success increment `conns` exactly
when the candidate was newly created. -/
def Pool.Get (p : Pool) (newConn : Except Err Handle)
    (ping : Option Handle → Option Err) : GetResult :=
  if p.conns ≥ p.MaxConns ∧ p.free = [] then
    { conn := none, err := some Err.maxConn, pool := p, closed := [] }
  else
    match p.free with
    | c :: rest =>
      -- reused path: pop the head; new_conn = false
      match ping c with
      | some e =>
        let conns2 : Int := if p.conns > 0 then p.conns - 1 else p.conns
        { conn := none, err := some e,
          pool := { p with free := rest, conns := conns2 },
          closed := [c] }
      | none =>
        { conn := c, err := none, pool := { p with free := rest }, closed := [] }
    | [] =>
      -- new-connection path: new_conn = true
      match newConn with
      | Except.error e =>
        { conn := none, err := some e, pool := p, closed := [] }
      | Except.ok c =>
        match ping (some c) with
        | some e =>
          { conn := none, err := some e, pool := p, closed := [some c] }
        | none =>
          { conn := some c, err := none,
            pool := { p with conns := p.conns + 1 }, closed := [] }

/-- Embeds `ConnPool.Close` of `src/conn_pool/pool.go` (identical to
`TcpConnPool.Close`): for a non-nil handle, if the free list is at
capacity (`len(free) >= MaxIdle`) close the handle and decrement `conns`
(no underflow guard in the source); otherwise append the handle to the
free list.  For a nil handle, decrement `conns` only when `conns > 0`.
Returns the new pool and the handles closed. -/
def Pool.Close (p : Pool) (conn : Option Handle) :
    Pool × List (Option Handle) :=
  match conn with
  | some c =>
    if (p.free.length : Int) ≥ p.MaxIdle then
      ({ p with conns := p.conns - 1 }, [some c])
    else
      ({ p with free := p.free ++ [some c] }, [])
  | none =>
    (if p.conns > 0 then { p with conns := p.conns - 1 } else p, [])

/-- Embeds `ConnPool.Release` of the second variant in
`src/tcp_connpool/pool.go`: if the free list is at capacity, decrement
`conns` (no underflow guard, and — unlike `Close` — the handle is NOT
closed, only a debug line mentions "auto close"); otherwise append the
handle (no nil check) to the free list. -/
def Pool.Release (p : Pool) (conn : Option Handle) :
    Pool × List (Option Handle) :=
  if (p.free.length : Int) ≥ p.MaxIdle then
    ({ p with conns := p.conns - 1 }, [])
  else
    ({ p with free := p.free ++ [conn] }, [])

/-- Embeds `ConnPool.CloseClean` of the second variant in
`src/tcp_connpool/pool.go`: close the handle if non-nil, then decrement
`conns` only when `conns > 0`. -/
def Pool.CloseClean (p : Pool) (conn : Option Handle) :
    Pool × List (Option Handle) :=
  (if p.conns > 0 then { p with conns := p.conns - 1 } else p,
   if conn.isSome then [conn] else [])

/-- The loop body of `Destroy`: iterate over the free list, closing every
non-nil handle, and collect the handles closed. -/
def destroyLoop : List (Option Handle) → List (Option Handle)
  | [] => []
  | some c :: rest => some c :: destroyLoop rest
  | none :: rest => destroyLoop rest

/-- Embeds `ConnPool.Destroy` (all three variants are identical): close
every non-nil handle in the free list; the trailing `p = nil` assigns the
local pointer only, so the pool state itself is left unchanged. -/
def Pool.Destroy (p : Pool) : Pool × List (Option Handle) :=
  (p, destroyLoop p.free)

/-- One caller-visible operation on a pool, with the environment's
behaviour (Factory outcome, Validator function) carried inside the `get`
operation.  `close`, `release` and `closeClean` carry the handle the
caller passes. -/
inductive Op where
  | get (newConn : Except Err Handle) (ping : Option Handle → Option Err) : Op
  | close (conn : Option Handle) : Op
  | release (conn : Option Handle) : Op
  | closeClean (conn : Option Handle) : Op
  | destroy : Op

/-- The state transition of one operation (discarding the returned
connection, error and closed-handle log). -/
def step (p : Pool) : Op → Pool
  | Op.get nc pg => (p.Get nc pg).pool
  | Op.close c => (p.Close c).1
  | Op.release c => (p.Release c).1
  | Op.closeClean c => (p.CloseClean c).1
  | Op.destroy => p.Destroy.1

/-- Run a sequence of operations from a state. -/
def runOps (p : Pool) : List Op → Pool
  | [] => p
  | op :: rest => runOps (step p op) rest

/-- Every state visited while running a sequence of operations,
including the initial and final states. -/
def statesOf (p : Pool) : List Op → List Pool
  | [] => [p]
  | op :: rest => p :: statesOf (step p op) rest

end Rpool

namespace TcpPool

/-- Embeds `TcpConnPool` of `src/tcp_connpool/pool.go` (first part):
fields `max_conns`, `max_idle`, `conns`, `free []net.Conn`; the
`dial_timeout` and `ping` fields configure the external collaborators
and are modelled as `Get` parameters, `name` is diagnostic only. -/
structure TcpConnPool where
  max_conns : Int
  max_idle : Int
  conns : Int
  free : List (Option Rpool.Handle)
deriving DecidableEq, Repr

/-- Go `NewTcpConnPool(name, max_conns, max_idle, dial_timeout, ping)`. -/
def NewTcpConnPool (max_conns max_idle : Int) : TcpConnPool :=
  { max_conns := max_conns, max_idle := max_idle, conns := 0, free := [] }

/-- Result of one `TcpConnPool.Get` call, mirroring `Rpool.GetResult`. -/
structure TcpGetResult where
  conn : Option Rpool.Handle
  err : Option Rpool.Err
  pool : TcpConnPool
  closed : List (Option Rpool.Handle)
deriving DecidableEq, Repr

/-- Embeds `TcpConnPool.Get`: identical control flow to
`conn_pool`'s `Get` (the `SetReadDeadline`/`SetWriteDeadline` calls do
not touch pool state); `openConn` is the outcome of the single
`n.open()` dial this call may perform. -/
def TcpConnPool.Get (n : TcpConnPool) (openConn : Except Rpool.Err Rpool.Handle)
    (ping : Option Rpool.Handle → Option Rpool.Err) : TcpGetResult :=
  if n.conns ≥ n.max_conns ∧ n.free = [] then
    { conn := none, err := some Rpool.Err.maxConn, pool := n, closed := [] }
  else
    match n.free with
    | c :: rest =>
      match ping c with
      | some e =>
        let conns2 : Int := if n.conns > 0 then n.conns - 1 else n.conns
        { conn := none, err := some e,
          pool := { n with conns := conns2, free := rest }, closed := [c] }
      | none =>
        { conn := c, err := none, pool := { n with free := rest }, closed := [] }
    | [] =>
      match openConn with
      | Except.error e =>
        { conn := none, err := some e, pool := n, closed := [] }
      | Except.ok c =>
        match ping (some c) with
        | some e =>
          { conn := none, err := some e, pool := n, closed := [some c] }
        | none =>
          { conn := some c, err := none,
            pool := { n with conns := n.conns + 1 }, closed := [] }

/-- Embeds `TcpConnPool.Close`: same logic as `conn_pool`'s `Close` —
non-nil handle: close it and decrement `conns` (unguarded) when the free
list is at capacity, else append it; nil handle: guarded decrement. -/
def TcpConnPool.Close (n : TcpConnPool) (conn : Option Rpool.Handle) :
    TcpConnPool × List (Option Rpool.Handle) :=
  match conn with
  | some c =>
    if (n.free.length : Int) ≥ n.max_idle then
      ({ n with conns := n.conns - 1 }, [some c])
    else
      ({ n with free := n.free ++ [some c] }, [])
  | none =>
    (if n.conns > 0 then { n with conns := n.conns - 1 } else n, [])

end TcpPool

namespace LockTrace

/-- Events emitted by one `Get` call: mutex acquire/release and the two
external calls (Factory = `New`/`open`, Validator = `Ping`). -/
inductive Event where
  | lock : Event
  | unlock : Event
  | callNew : Event
  | callPing : Event
deriving DecidableEq, Repr

/-- The event trace of `ConnPool.Get` in `src/conn_pool/pool.go`
(global mutex, `m.Lock()` followed by `defer m.Unlock()`), as a function
of the four path conditions: the capacity guard firing, the free list
being non-empty, `New` failing, and `Ping` failing.  Every path releases
the mutex only via the deferred unlock, at return. -/
def getTraceV1 (guardFail freeNonempty newErr pingErr : Bool) : List Event :=
  if guardFail then
    [Event.lock, Event.unlock]
  else if freeNonempty then
    if pingErr then [Event.lock, Event.callPing, Event.unlock]
    else [Event.lock, Event.callPing, Event.unlock]
  else if newErr then
    [Event.lock, Event.callNew, Event.unlock]
  else if pingErr then
    [Event.lock, Event.callNew, Event.callPing, Event.unlock]
  else
    [Event.lock, Event.callNew, Event.callPing, Event.unlock]

/-- The event trace of `TcpConnPool.Get` in `src/tcp_connpool/pool.go`
(global mutex, `m.Lock()` followed by `defer m.Unlock()`): same locking
shape as `getTraceV1`, with `open()` in place of `New`. -/
def getTraceTcp (guardFail freeNonempty openErr pingErr : Bool) : List Event :=
  if guardFail then
    [Event.lock, Event.unlock]
  else if freeNonempty then
    if pingErr then [Event.lock, Event.callPing, Event.unlock]
    else [Event.lock, Event.callPing, Event.unlock]
  else if openErr then
    [Event.lock, Event.callNew, Event.unlock]
  else if pingErr then
    [Event.lock, Event.callNew, Event.callPing, Event.unlock]
  else
    [Event.lock, Event.callNew, Event.callPing, Event.unlock]

/-- The event trace of the second variant's `ConnPool.Get` in
`src/tcp_connpool/pool.go` (per-pool mutex, explicit unlocks): the guard
and free-list pop happen under the lock; `p.New()` is called while still
holding the lock, the lock is released before `p.Ping(conn)`, and the
lock is re-taken briefly for the post-ping bookkeeping (the ping-failure
decrement, or the `conns += 1` on the new-connection success path). -/
def getTraceV2 (guardFail freeNonempty newErr pingErr : Bool) : List Event :=
  if guardFail then
    [Event.lock, Event.unlock]
  else if freeNonempty then
    if pingErr then
      [Event.lock, Event.unlock, Event.callPing, Event.lock, Event.unlock]
    else
      [Event.lock, Event.unlock, Event.callPing]
  else if newErr then
    [Event.lock, Event.callNew, Event.unlock]
  else if pingErr then
    [Event.lock, Event.callNew, Event.unlock, Event.callPing,
     Event.lock, Event.unlock]
  else
    [Event.lock, Event.callNew, Event.unlock, Event.callPing,
     Event.lock, Event.unlock]

/-- `occursAtDepthPos e tr d` threads the current lock depth `d` through
the trace `tr` and reports whether some occurrence of the external call
`e` happens while the depth is positive (the mutex is held). -/
def occursAtDepthPos (e : Event) : List Event → Nat → Bool
  | [], _ => false
  | Event.lock :: rest, d => occursAtDepthPos e rest (d + 1)
  | Event.unlock :: rest, d => occursAtDepthPos e rest (d - 1)
  | ev :: rest, d => (ev == e && decide (0 < d)) || occursAtDepthPos e rest d

/-- `occursUnderLock tr e` holds when some occurrence of the external
call `e` in the trace happens while the mutex is held. -/
def occursUnderLock (tr : List Event) (e : Event) : Bool :=
  occursAtDepthPos e tr 0

/-- `occursAtAll tr e`: the event appears in the trace. -/
def occursAtAll (tr : List Event) (e : Event) : Bool :=
  tr.contains e

end LockTrace

namespace Rpool

/-- `k`-fold application of `CloseClean` with the same handle, used to
state that repeated discards never drive the counter below zero. -/
def iterCloseClean (conn : Option Handle) : Nat → Pool → Pool
  | 0, p => p
  | k + 1, p => iterCloseClean conn k (p.CloseClean conn).1

/-- The upper-bound part of the spec's state invariant: the outstanding
counter never exceeds `MaxConns` and the free list never exceeds
`MaxIdle`. -/
def InvUB (p : Pool) : Prop :=
  p.conns ≤ p.MaxConns ∧ (p.free.length : Int) ≤ p.MaxIdle

/-- The full invariant claimed by the spec, including the lower bound on
the outstanding counter. -/
def InvFull (p : Pool) : Prop :=
  0 ≤ p.conns ∧ p.conns ≤ p.MaxConns ∧ (p.free.length : Int) ≤ p.MaxIdle

instance (p : Pool) : Decidable (InvFull p) := by unfold InvFull; infer_instance

lemma get_pool_config (p : Pool) (nc : Except Err Handle)
    (pg : Option Handle → Option Err) :
    (p.Get nc pg).pool.MaxConns = p.MaxConns ∧
    (p.Get nc pg).pool.MaxIdle = p.MaxIdle := by
  obtain ⟨mc, mi, k, fr⟩ := p
  by_cases hg : k ≥ mc ∧ fr = []
  · simp [Pool.Get, hg]
  · cases fr with
    | nil =>
      simp only [ne_eq, and_true, ge_iff_le, not_le] at hg
      cases nc with
      | error e => simp [Pool.Get, hg, not_le.mpr hg]
      | ok c =>
        cases hp : pg (some c) with
        | some e => simp [Pool.Get, not_le.mpr hg, hp]
        | none => simp [Pool.Get, not_le.mpr hg, hp]
    | cons c rest =>
      cases hp : pg c with
      | some e => simp [Pool.Get, hp]
      | none => simp [Pool.Get, hp]

lemma get_preserves_invUB (p : Pool) (nc : Except Err Handle)
    (pg : Option Handle → Option Err) (h : InvUB p) :
    InvUB (p.Get nc pg).pool := by
  obtain ⟨mc, mi, k, fr⟩ := p
  obtain ⟨h1, h2⟩ := h
  simp only [InvUB] at h1 h2 ⊢
  by_cases hg : k ≥ mc ∧ fr = []
  · simp only [Pool.Get, if_pos hg]
    exact ⟨h1, h2⟩
  · cases fr with
    | nil =>
      simp only [and_true, ge_iff_le, not_le] at hg
      cases nc with
      | error e =>
        simp [Pool.Get, not_le.mpr hg]
        exact ⟨h1, by simpa using h2⟩
      | ok c =>
        cases hp : pg (some c) with
        | some e =>
          simp [Pool.Get, not_le.mpr hg, hp]
          exact ⟨h1, by simpa using h2⟩
        | none =>
          simp [Pool.Get, not_le.mpr hg, hp]
          exact ⟨by omega, by simpa using h2⟩
    | cons c rest =>
      simp only [List.length_cons] at h2
      push_cast at h2
      cases hp : pg c with
      | some e =>
        simp [Pool.Get, hp]
        constructor
        · split <;> omega
        · omega
      | none =>
        simp [Pool.Get, hp]
        exact ⟨h1, by omega⟩

lemma step_preserves_invUB (p : Pool) (op : Op) (h : InvUB p) :
    InvUB (step p op) := by
  cases op with
  | get nc pg => exact get_preserves_invUB p nc pg h
  | close c =>
    obtain ⟨mc, mi, k, fr⟩ := p
    obtain ⟨h1, h2⟩ := h
    simp only [InvUB] at h1 h2 ⊢
    cases c with
    | some c =>
      by_cases hcap : (fr.length : Int) ≥ mi
      · simp [step, Pool.Close, hcap]
        exact ⟨by omega, h2⟩
      · simp [step, Pool.Close, hcap]
        constructor
        · exact h1
        · omega
    | none =>
      simp only [step, Pool.Close]
      split
      · exact ⟨show k - 1 ≤ mc by omega, h2⟩
      · exact ⟨h1, h2⟩
  | release c =>
    obtain ⟨mc, mi, k, fr⟩ := p
    obtain ⟨h1, h2⟩ := h
    simp only [InvUB] at h1 h2 ⊢
    by_cases hcap : (fr.length : Int) ≥ mi
    · simp [step, Pool.Release, hcap]
      exact ⟨by omega, h2⟩
    · simp [step, Pool.Release, hcap]
      constructor
      · exact h1
      · omega
  | closeClean c =>
    obtain ⟨mc, mi, k, fr⟩ := p
    obtain ⟨h1, h2⟩ := h
    simp only [InvUB] at h1 h2 ⊢
    simp only [step, Pool.CloseClean]
    split
    · exact ⟨show k - 1 ≤ mc by omega, h2⟩
    · exact ⟨h1, h2⟩
  | destroy => exact h

lemma step_config (p : Pool) (op : Op) :
    (step p op).MaxConns = p.MaxConns ∧ (step p op).MaxIdle = p.MaxIdle := by
  cases op with
  | get nc pg => exact get_pool_config p nc pg
  | close c =>
    cases c with
    | some c =>
      simp only [step, Pool.Close]
      split <;> simp
    | none =>
      simp only [step, Pool.Close]
      split <;> simp
  | release c =>
    simp only [step, Pool.Release]
    split <;> simp
  | closeClean c =>
    simp only [step, Pool.CloseClean]
    split <;> simp
  | destroy => exact ⟨rfl, rfl⟩

lemma statesOf_invUB (p : Pool) (ops : List Op) (h : InvUB p) :
    ∀ q ∈ statesOf p ops, InvUB q ∧
      q.MaxConns = p.MaxConns ∧ q.MaxIdle = p.MaxIdle := by
  induction ops generalizing p with
  | nil =>
    intro q hq
    simp only [statesOf, List.mem_singleton] at hq
    subst hq
    exact ⟨h, rfl, rfl⟩
  | cons op rest ih =>
    intro q hq
    simp only [statesOf, List.mem_cons] at hq
    rcases hq with hq | hq
    · subst hq; exact ⟨h, rfl, rfl⟩
    · have hstep := step_preserves_invUB p op h
      have hcfg := step_config p op
      obtain ⟨hinv, hc1, hc2⟩ := ih (step p op) hstep q hq
      exact ⟨hinv, hc1.trans hcfg.1, hc2.trans hcfg.2⟩

end Rpool


namespace Rpool

lemma mem_destroyLoop (l : List (Option Handle)) (c : Handle)
    (h : some c ∈ l) : some c ∈ destroyLoop l := by
  induction l with
  | nil => simp at h
  | cons a rest ih =>
    cases a with
    | some b =>
      simp only [destroyLoop, List.mem_cons] at h ⊢
      rcases h with h | h
      · exact Or.inl h
      · exact Or.inr (ih h)
    | none =>
      simp only [List.mem_cons] at h
      rcases h with h | h
      · exact absurd h (by simp)
      · exact ih h

/-- Claim C1, counterexample: on a pool whose free list is at capacity
(fresh pool with `maxIdle = 0`), `Close` with a non-nil handle drives
`conns` from `0` to `-1` — the decrement on this path is NOT guarded
against underflow — and the second variant's `Release` on the same state
closes nothing at all (its closed-handle log is empty) while also
driving `conns` to `-1`. -/
theorem C1_counterexample :
    ((NewConnPool 1 0).free.length : Int) ≥ (NewConnPool 1 0).MaxIdle ∧
    ((NewConnPool 1 0).Close (some 5)).1.conns = -1 ∧
    ¬ (0 ≤ ((NewConnPool 1 0).Close (some 5)).1.conns) ∧
    ((NewConnPool 1 0).Release (some 5)).2 = [] ∧
    ((NewConnPool 1 0).Release (some 5)).1.conns = -1 ∧
    ((TcpPool.NewTcpConnPool 1 0).Close (some 5)).1.conns = -1 := by
  decide

/-- Claim C1 (amended): for every pool state in which the free list is
at capacity, `Close` (in both the `conn_pool` and `tcp_connpool`
variants) with a non-nil handle closes that handle and decrements
`conns` WITHOUT any underflow guard, so this path can drive the counter
below zero; the second variant's `Release` likewise decrements without a
guard but does not close the handle. -/
theorem C1_amended (p : Pool) (c : Handle) (n : TcpPool.TcpConnPool)
    (h : (p.free.length : Int) ≥ p.MaxIdle)
    (hn : (n.free.length : Int) ≥ n.max_idle) :
    p.Close (some c) = ({ p with conns := p.conns - 1 }, [some c]) ∧
    p.Release (some c) = ({ p with conns := p.conns - 1 }, []) ∧
    n.Close (some c) = ({ n with conns := n.conns - 1 }, [some c]) := by
  refine ⟨?_, ?_, ?_⟩
  · simp [Pool.Close, h]
  · simp [Pool.Release, h]
  · simp [TcpPool.TcpConnPool.Close, hn]

/-- Claim C1, witness for the amended theorem at a concrete input. -/
theorem C1_witness :
    Pool.Close ⟨1, 0, 0, []⟩ (some 5) = (⟨1, 0, -1, []⟩, [some 5]) ∧
    Pool.Release ⟨1, 0, 0, []⟩ (some 5) = (⟨1, 0, -1, []⟩, []) ∧
    TcpPool.TcpConnPool.Close ⟨1, 0, 0, []⟩ (some 5) =
      (⟨1, 0, -1, []⟩, [some 5]) :=
  C1_amended ⟨1, 0, 0, []⟩ 5 ⟨1, 0, 0, []⟩ (by decide) (by decide)

/-- Claim C2, counterexample: from the freshly constructed pool with
`maxConns = 1`, `maxIdle = 0`, the single-operation sequence
`[Close (some 5)]` reaches a state with `conns = -1`, violating the
claimed invariant `0 ≤ outstandingCount`. -/
theorem C2_counterexample :
    ¬ ∀ q ∈ statesOf (NewConnPool 1 0) [Op.close (some 5)], InvFull q := by
  decide

/-- Claim C2 (amended): for every operation sequence from a freshly
constructed pool with non-negative ceilings, every reachable state
satisfies the UPPER bounds `conns ≤ maxConns` and
`0 ≤ len(freeList) ≤ maxIdle`; the lower bound `0 ≤ conns` of the
original claim does not hold (the at-capacity release path decrements
without a guard). -/
theorem C2_amended (mc mi : Int) (h1 : 0 ≤ mc) (h2 : 0 ≤ mi)
    (ops : List Op) :
    ∀ q ∈ statesOf (NewConnPool mc mi) ops,
      q.conns ≤ mc ∧ 0 ≤ (q.free.length : Int) ∧ (q.free.length : Int) ≤ mi := by
  intro q hq
  have h0 : InvUB (NewConnPool mc mi) := by
    constructor
    · simpa [NewConnPool] using h1
    · simpa [NewConnPool] using h2
  obtain ⟨⟨hub1, hub2⟩, hc1, hc2⟩ := statesOf_invUB (NewConnPool mc mi) ops h0 q hq
  simp only [NewConnPool] at hc1 hc2
  refine ⟨?_, ?_, ?_⟩
  · rw [hc1] at hub1; exact hub1
  · exact Int.natCast_nonneg _
  · rw [hc2] at hub2; exact hub2

/-- Claim C2, witness for the amended theorem at a concrete input. -/
theorem C2_witness :
    (runOps (NewConnPool 1 1) [Op.get (Except.ok 3) (fun _ => none)]).conns ≤ 1 ∧
    0 ≤ ((runOps (NewConnPool 1 1) [Op.get (Except.ok 3) (fun _ => none)]).free.length : Int) ∧
    ((runOps (NewConnPool 1 1) [Op.get (Except.ok 3) (fun _ => none)]).free.length : Int) ≤ 1 :=
  C2_amended 1 1 (by decide) (by decide) [Op.get (Except.ok 3) (fun _ => none)]
    (runOps (NewConnPool 1 1) [Op.get (Except.ok 3) (fun _ => none)])
    (by simp [statesOf, runOps])

/-- Claim C3, counterexample: `Destroy` on a pool holding one free
connection does close it, but the pool is NOT left unusable — the
`p = nil` assignment only clears the local pointer — and the very next
`Get` hands out the just-closed connection with no error. -/
theorem C3_counterexample :
    (Pool.Destroy ⟨1, 1, 1, [some 7]⟩).2 = [some 7] ∧
    ((Pool.Destroy ⟨1, 1, 1, [some 7]⟩).1.Get (Except.error (Err.fail 0))
        (fun _ => none)).conn = some 7 ∧
    ((Pool.Destroy ⟨1, 1, 1, [some 7]⟩).1.Get (Except.error (Err.fail 0))
        (fun _ => none)).err = none := by
  decide

/-- Claim C3 (amended): `Destroy` closes every (non-nil) connection
currently in the free list, but it leaves the pool state completely
unchanged — the trailing `p = nil` assigns only the local pointer — so
the pool remains usable and subsequent operations can still hand out
connections (including ones `Destroy` just closed, as the counterexample
shows). -/
theorem C3_amended (p : Pool) :
    (∀ c : Handle, some c ∈ p.free → some c ∈ p.Destroy.2) ∧
    p.Destroy.1 = p := by
  refine ⟨?_, rfl⟩
  intro c hc
  exact mem_destroyLoop p.free c hc

/-- Claim C3, witness for the amended theorem at a concrete input. -/
theorem C3_witness :
    some 7 ∈ (Pool.Destroy ⟨1, 1, 1, [some 7]⟩).2 ∧
    (Pool.Destroy ⟨1, 1, 1, [some 7]⟩).1 = ⟨1, 1, 1, [some 7]⟩ :=
  ⟨(C3_amended ⟨1, 1, 1, [some 7]⟩).1 7 (by decide),
   (C3_amended ⟨1, 1, 1, [some 7]⟩).2⟩

end Rpool

namespace Rpool

/-- Claim C4: in every `Get` whose Validator (`Ping`) fails on the
candidate, the candidate is closed and never returned; when the
candidate was popped from the free list, `conns` is decremented under
the guard `conns > 0` (so this path never drives the counter below
zero); when the candidate was newly created, the pool state is
completely unchanged; and the validation error is propagated.  Stated
for both the `conn_pool` and the `tcp_connpool` variants. -/
theorem C4_validation_failure
    (p : Pool) (c2 : Option Handle) (rest : List (Option Handle))
    (e : Err) (nc : Except Err Handle) (pg : Option Handle → Option Err)
    (ch : Handle) (n : TcpPool.TcpConnPool) :
    (p.free = c2 :: rest → pg c2 = some e →
      (p.Get nc pg).conn = none ∧
      (p.Get nc pg).err = some e ∧
      (p.Get nc pg).closed = [c2] ∧
      (p.Get nc pg).pool.free = rest ∧
      (p.Get nc pg).pool.conns =
        (if p.conns > 0 then p.conns - 1 else p.conns) ∧
      (0 ≤ p.conns → 0 ≤ (p.Get nc pg).pool.conns)) ∧
    (p.free = [] → p.conns < p.MaxConns → pg (some ch) = some e →
      p.Get (Except.ok ch) pg =
        { conn := none, err := some e, pool := p, closed := [some ch] }) ∧
    (n.free = c2 :: rest → pg c2 = some e →
      (n.Get nc pg).conn = none ∧
      (n.Get nc pg).err = some e ∧
      (n.Get nc pg).closed = [c2] ∧
      (n.Get nc pg).pool.free = rest ∧
      (n.Get nc pg).pool.conns =
        (if n.conns > 0 then n.conns - 1 else n.conns) ∧
      (0 ≤ n.conns → 0 ≤ (n.Get nc pg).pool.conns)) ∧
    (n.free = [] → n.conns < n.max_conns → pg (some ch) = some e →
      n.Get (Except.ok ch) pg =
        { conn := none, err := some e, pool := n, closed := [some ch] }) := by
  obtain ⟨mc, mi, k, fr⟩ := p
  obtain ⟨nmc, nmi, nk, nfr⟩ := n
  refine ⟨?_, ?_, ?_, ?_⟩
  · intro hf hp
    subst hf
    simp [Pool.Get, hp]
    intro hk
    split <;> omega
  · intro hf hlt hp
    subst hf
    simp only at hlt
    simp [Pool.Get, hp, not_le.mpr hlt]
  · intro hf hp
    subst hf
    simp [TcpPool.TcpConnPool.Get, hp]
    intro hk
    split <;> omega
  · intro hf hlt hp
    subst hf
    simp only at hlt
    simp [TcpPool.TcpConnPool.Get, hp, not_le.mpr hlt]

/-- Claim C4, witness at concrete inputs: a reused candidate failing
validation leaves `conns = 0` (guarded decrement from 1), and a freshly
created candidate failing validation leaves the pool unchanged, in both
variants. -/
theorem C4_witness :
    (Pool.Get ⟨2, 2, 1, [some 4]⟩ (Except.ok 0)
        (fun _ => some (Err.fail 9))).pool.conns = 0 ∧
    Pool.Get ⟨2, 2, 0, []⟩ (Except.ok 8) (fun _ => some (Err.fail 9)) =
      { conn := none, err := some (Err.fail 9), pool := ⟨2, 2, 0, []⟩,
        closed := [some 8] } ∧
    (TcpPool.TcpConnPool.Get ⟨2, 2, 1, [some 4]⟩ (Except.ok 0)
        (fun _ => some (Err.fail 9))).pool.conns = 0 ∧
    TcpPool.TcpConnPool.Get ⟨2, 2, 0, []⟩ (Except.ok 8)
        (fun _ => some (Err.fail 9)) =
      { conn := none, err := some (Err.fail 9), pool := ⟨2, 2, 0, []⟩,
        closed := [some 8] } := by
  have h1 := C4_validation_failure ⟨2, 2, 1, [some 4]⟩ (some 4) [] (Err.fail 9)
      (Except.ok 0) (fun _ => some (Err.fail 9)) 8 ⟨2, 2, 1, [some 4]⟩
  have h2 := C4_validation_failure ⟨2, 2, 0, []⟩ (some 4) [] (Err.fail 9)
      (Except.ok 0) (fun _ => some (Err.fail 9)) 8 ⟨2, 2, 0, []⟩
  refine ⟨?_, h2.2.1 rfl (by decide) rfl, ?_, h2.2.2.2 rfl (by decide) rfl⟩
  · rw [(h1.1 rfl rfl).2.2.2.2.1]; decide
  · rw [(h1.2.2.1 rfl rfl).2.2.2.2.1]; decide

/-- Claim C5, counterexample: the "only if" direction fails when the
Factory itself returns the MaxConnections error — on a fresh pool with
`maxConns = 1` (capacity NOT reached), `Get` with a Factory failing with
`ErrMaxConn` returns `ErrMaxConn` even though the capacity condition is
false. -/
theorem C5_counterexample :
    ((NewConnPool 1 1).Get (Except.error Err.maxConn) (fun _ => none)).err =
      some Err.maxConn ∧
    ¬ ((NewConnPool 1 1).conns ≥ (NewConnPool 1 1).MaxConns ∧
       (NewConnPool 1 1).free = []) := by
  decide

/-- Claim C5 (amended): provided the Factory and Validator never
themselves produce `ErrMaxConn`, `Get` returns `ErrMaxConn` if and only
if, at the capacity check, `conns ≥ maxConns` and the free list is
empty; and in that case it fails immediately, closing nothing, changing
no pool state, and without invoking the Factory or the Validator (the
result is independent of both). -/
theorem C5_amended (p : Pool) (nc : Except Err Handle)
    (pg : Option Handle → Option Err)
    (hnc : ∀ e : Err, nc = Except.error e → e ≠ Err.maxConn)
    (hpg : ∀ c : Option Handle, pg c ≠ some Err.maxConn) :
    ((p.Get nc pg).err = some Err.maxConn ↔
      (p.conns ≥ p.MaxConns ∧ p.free = [])) ∧
    (p.conns ≥ p.MaxConns ∧ p.free = [] →
      (p.Get nc pg).pool = p ∧ (p.Get nc pg).closed = [] ∧
      ∀ (nc2 : Except Err Handle) (pg2 : Option Handle → Option Err),
        p.Get nc2 pg2 = p.Get nc pg) := by
  obtain ⟨mc, mi, k, fr⟩ := p
  by_cases hg : k ≥ mc ∧ fr = []
  · have hg2 : ({ MaxConns := mc, MaxIdle := mi, conns := k, free := fr } : Pool).conns ≥
        ({ MaxConns := mc, MaxIdle := mi, conns := k, free := fr } : Pool).MaxConns ∧
        ({ MaxConns := mc, MaxIdle := mi, conns := k, free := fr } : Pool).free = [] := hg
    refine ⟨?_, ?_⟩
    · simp only [Pool.Get, if_pos hg2]
      simpa using hg
    · intro _
      refine ⟨by simp only [Pool.Get, if_pos hg2], by simp only [Pool.Get, if_pos hg2], ?_⟩
      intro nc2 pg2
      simp only [Pool.Get, if_pos hg2]
  · refine ⟨?_, fun hcond => absurd hcond hg⟩
    simp only [hg, iff_false]
    cases fr with
    | cons c rest =>
      cases hp : pg c with
      | some e =>
        simp [Pool.Get, hp]
        intro he
        exact hpg c (by rw [hp, he])
      | none => simp [Pool.Get, hp]
    | nil =>
      simp only [and_true] at hg
      rw [not_le] at hg
      cases nc with
      | error e =>
        simp [Pool.Get, not_le.mpr hg]
        intro he
        exact hnc e rfl he
      | ok c =>
        cases hp : pg (some c) with
        | some e =>
          simp [Pool.Get, not_le.mpr hg, hp]
          intro he
          exact hpg (some c) (by rw [hp, he])
        | none => simp [Pool.Get, not_le.mpr hg, hp]

/-- Claim C5, witness for the amended theorem at a concrete input: on a
fresh pool with `maxConns = 0` the capacity check fires, `ErrMaxConn` is
returned and the state is untouched. -/
theorem C5_witness :
    ((NewConnPool 0 3).Get (Except.error (Err.fail 1))
        (fun _ => some (Err.fail 2))).err = some Err.maxConn ∧
    ((NewConnPool 0 3).Get (Except.error (Err.fail 1))
        (fun _ => some (Err.fail 2))).pool = NewConnPool 0 3 := by
  have h := C5_amended (NewConnPool 0 3) (Except.error (Err.fail 1))
      (fun _ => some (Err.fail 2))
      (by intro e he; injection he with he2; subst he2; decide)
      (by intro c; show some (Err.fail 2) ≠ some Err.maxConn; decide)
  exact ⟨h.1.mpr (by decide), (h.2 (by decide)).1⟩

/-- Claim C6: `CloseClean` (and `Close` with a nil handle) decrements
`conns` only when it is strictly positive, so any number of repeated
discards never drives the counter below zero; a present (non-nil) handle
is still closed, and the free list is untouched. -/
theorem C6_discard_guarded (p : Pool) (conn : Option Handle) :
    ((p.CloseClean conn).1.conns =
      (if p.conns > 0 then p.conns - 1 else p.conns)) ∧
    ((p.CloseClean conn).1.free = p.free) ∧
    ((p.CloseClean conn).2 = if conn.isSome then [conn] else []) ∧
    ((p.Close none).1.conns =
      (if p.conns > 0 then p.conns - 1 else p.conns)) ∧
    ((p.Close none).2 = []) ∧
    (0 ≤ p.conns → ∀ k : Nat, 0 ≤ (iterCloseClean conn k p).conns) := by
  refine ⟨?_, ?_, rfl, ?_, rfl, ?_⟩
  · simp only [Pool.CloseClean]
    split <;> rfl
  · simp only [Pool.CloseClean]
    split <;> rfl
  · simp only [Pool.Close]
    split <;> rfl
  · intro h0 k
    induction k generalizing p with
    | zero => exact h0
    | succ k ih =>
      apply ih
      simp only [Pool.CloseClean]
      split
      · show 0 ≤ p.conns - 1
        omega
      · exact h0

/-- Claim C6, witness: five repeated discards starting from `conns = 1`
leave the counter at zero, never negative, and the non-nil handle is
reported closed. -/
theorem C6_witness :
    0 ≤ (iterCloseClean (some 3) 5 ⟨1, 1, 1, []⟩).conns ∧
    (Pool.CloseClean ⟨1, 1, 1, []⟩ (some 3)).2 = [some 3] := by
  have h := C6_discard_guarded ⟨1, 1, 1, []⟩ (some 3)
  refine ⟨h.2.2.2.2.2 (by decide) 5, ?_⟩
  rw [h.2.2.1]
  decide

/-- Claim C7: the free list is FIFO — `Release`/`Close` append the
returned handle at the tail (when below capacity, leaving `conns`
unchanged), and `Get` with a non-empty free list always takes the head
(index 0, the oldest-returned entry) as its candidate; popping it leaves
`conns` unchanged (on validation success the returned state differs from
the input only by the removed head). -/
theorem C7_fifo (p : Pool) (c2 : Option Handle) (rest : List (Option Handle))
    (nc : Except Err Handle) (pg : Option Handle → Option Err)
    (conn : Option Handle) (c : Handle) :
    ((p.free.length : Int) < p.MaxIdle →
      (p.Release conn).1.free = p.free ++ [conn] ∧
      (p.Close (some c)).1.free = p.free ++ [some c] ∧
      (p.Release conn).1.conns = p.conns ∧
      (p.Close (some c)).1.conns = p.conns) ∧
    (p.free = c2 :: rest →
      ((pg c2 = none →
        p.Get nc pg = { conn := c2, err := none,
                        pool := { p with free := rest }, closed := [] }) ∧
       (∀ e : Err, pg c2 = some e → (p.Get nc pg).closed = [c2]) ∧
       (p.Get nc pg).pool.free = rest)) := by
  obtain ⟨mc, mi, k, fr⟩ := p
  constructor
  · intro hlt
    simp only at hlt
    refine ⟨?_, ?_, ?_, ?_⟩ <;>
      simp [Pool.Release, Pool.Close, not_le.mpr hlt]
  · intro hf
    subst hf
    refine ⟨?_, ?_, ?_⟩
    · intro hp
      simp [Pool.Get, hp]
    · intro e hp
      simp [Pool.Get, hp]
    · cases hp : pg c2 with
      | some e => simp [Pool.Get, hp]
      | none => simp [Pool.Get, hp]

/-- Claim C7, witness: releasing into `[some 4]` appends at the tail,
and `Get` pops `some 4`, the oldest entry, leaving `conns` unchanged. -/
theorem C7_witness :
    (Pool.Release ⟨2, 2, 1, [some 4]⟩ (some 9)).1.free = [some 4, some 9] ∧
    Pool.Get ⟨2, 2, 1, [some 4]⟩ (Except.ok 0) (fun _ => none) =
      { conn := some 4, err := none, pool := ⟨2, 2, 1, []⟩, closed := [] } := by
  have h := C7_fifo ⟨2, 2, 1, [some 4]⟩ (some 4) [] (Except.ok 0)
      (fun _ => none) (some 9) 9
  exact ⟨(h.1 (by decide)).1, (h.2 rfl).1 rfl⟩

end Rpool

namespace LockTrace

/-- Claim C8, counterexample: in `conn_pool`'s `Get` (deferred global
unlock) the Factory call and the Validator call both occur while the
mutex is held, in `TcpConnPool.Get` the Factory call does too, and even
in the second variant's `Get` the Factory call happens under the lock
(shown here on the path: guard passes, free list empty, dial succeeds,
ping succeeds). -/
theorem C8_counterexample :
    occursUnderLock (getTraceV1 false false false false) Event.callNew = true ∧
    occursUnderLock (getTraceV1 false true false false) Event.callPing = true ∧
    occursUnderLock (getTraceTcp false false false false) Event.callNew = true ∧
    occursUnderLock (getTraceV2 false false false false) Event.callNew = true := by
  decide

/-- Claim C8 (amended): the lock IS held across the Factory call in all
three `Get` variants, and across the Validator call in the two
global-mutex variants (`conn_pool.Get`, `TcpConnPool.Get`); only the
second variant's per-pool-mutex `Get` releases the lock before the
Validator call — on every execution path, every Validator call it makes
is outside the lock while every Factory call it makes is under it. -/
theorem C8_amended :
    ∀ a b c d : Bool,
      (occursUnderLock (getTraceV1 a b c d) Event.callNew =
        occursAtAll (getTraceV1 a b c d) Event.callNew) ∧
      (occursUnderLock (getTraceV1 a b c d) Event.callPing =
        occursAtAll (getTraceV1 a b c d) Event.callPing) ∧
      (occursUnderLock (getTraceTcp a b c d) Event.callNew =
        occursAtAll (getTraceTcp a b c d) Event.callNew) ∧
      (occursUnderLock (getTraceTcp a b c d) Event.callPing =
        occursAtAll (getTraceTcp a b c d) Event.callPing) ∧
      (occursUnderLock (getTraceV2 a b c d) Event.callPing = false) ∧
      (occursUnderLock (getTraceV2 a b c d) Event.callNew =
        occursAtAll (getTraceV2 a b c d) Event.callNew) := by
  decide

end LockTrace

namespace Rpool

/-- Claim C9: `Release` (and `Close`) perform no membership or duplicate
check on the returned handle — with room for both returns in the free
list, releasing the same handle twice with no intervening `Get` appends
it twice, and (from an empty free list) the two subsequent `Get` calls
each hand out that same handle. -/
theorem C9_double_release (p : Pool) (c : Handle) (nc : Except Err Handle)
    (h : (p.free.length : Int) + 1 < p.MaxIdle) :
    (((p.Release (some c)).1.Release (some c)).1.free =
      p.free ++ [some c, some c]) ∧
    (((p.Close (some c)).1.Close (some c)).1.free =
      p.free ++ [some c, some c]) ∧
    (p.free = [] →
      (((p.Release (some c)).1.Release (some c)).1.Get nc
          (fun _ => none)).conn = some c ∧
      ((((p.Release (some c)).1.Release (some c)).1.Get nc
          (fun _ => none)).pool.Get nc (fun _ => none)).conn = some c) := by
  obtain ⟨mc, mi, k, fr⟩ := p
  simp only at h
  have h1 : ¬ ((fr.length : Int) ≥ mi) := by omega
  have hR1 : (Pool.Release ⟨mc, mi, k, fr⟩ (some c)).1 =
      ⟨mc, mi, k, fr ++ [some c]⟩ := by
    simp [Pool.Release, h1]
  have hC1 : (Pool.Close ⟨mc, mi, k, fr⟩ (some c)).1 =
      ⟨mc, mi, k, fr ++ [some c]⟩ := by
    simp [Pool.Close, h1]
  have h2 : ¬ (mi ≤ (fr.length : Int) + 1) := by omega
  have hR2 : (Pool.Release ⟨mc, mi, k, fr ++ [some c]⟩ (some c)).1 =
      ⟨mc, mi, k, fr ++ [some c, some c]⟩ := by
    simp [Pool.Release, h2]
  have hC2 : (Pool.Close ⟨mc, mi, k, fr ++ [some c]⟩ (some c)).1 =
      ⟨mc, mi, k, fr ++ [some c, some c]⟩ := by
    simp [Pool.Close, h2]
  refine ⟨by rw [hR1, hR2], by rw [hC1, hC2], ?_⟩
  intro hf
  subst hf
  rw [hR1, hR2]
  simp [Pool.Get]

/-- Claim C9, witness: releasing handle 3 twice into an empty free list
with `maxIdle = 5` yields `[some 3, some 3]`, and the next two `Get`
calls both return handle 3. -/
theorem C9_witness :
    ((Pool.Release ⟨5, 5, 2, []⟩ (some 3)).1.Release (some 3)).1.free =
      [] ++ [some 3, some 3] ∧
    (((Pool.Release ⟨5, 5, 2, []⟩ (some 3)).1.Release (some 3)).1.Get
        (Except.ok 0) (fun _ => none)).conn = some 3 ∧
    ((((Pool.Release ⟨5, 5, 2, []⟩ (some 3)).1.Release (some 3)).1.Get
        (Except.ok 0) (fun _ => none)).pool.Get (Except.ok 0)
        (fun _ => none)).conn = some 3 := by
  have h := C9_double_release ⟨5, 5, 2, []⟩ 3 (Except.ok 0) (by decide)
  exact ⟨h.1, (h.2.2 rfl).1, (h.2.2 rfl).2⟩

/-- Claim C10: on a pool freshly constructed with `maxConns ≤ 0`, every
`Get` fails with `ErrMaxConn` and never invokes the Factory or the
Validator: the counter starts at 0, the free list starts empty, and
`0 ≥ maxConns` holds, so the capacity check fires immediately (the
result is one fixed value, independent of the `newConn` and `ping`
arguments, and the state is unchanged). -/
theorem C10_nonpositive_maxconns (mc mi : Int) (nc : Except Err Handle)
    (pg : Option Handle → Option Err) (h : mc ≤ 0) :
    (NewConnPool mc mi).Get nc pg =
      { conn := none, err := some Err.maxConn,
        pool := NewConnPool mc mi, closed := [] } := by
  have hg : (NewConnPool mc mi).conns ≥ (NewConnPool mc mi).MaxConns ∧
      (NewConnPool mc mi).free = [] := by
    constructor
    · show mc ≤ (0 : Int)
      exact h
    · rfl
  simp only [Pool.Get, if_pos hg]

/-- Claim C10, witness at a concrete input: `maxConns = 0`. -/
theorem C10_witness :
    (NewConnPool 0 5).Get (Except.ok 1) (fun _ => none) =
      { conn := none, err := some Err.maxConn,
        pool := NewConnPool 0 5, closed := [] } :=
  C10_nonpositive_maxconns 0 5 (Except.ok 1) (fun _ => none) (by decide)

end Rpool
